import Mathlib

/-!
Verification development for the AI memory gateway's Memory Retrieval &
Curation Engine.  The definitions below are a shallow embedding of the
repository's Python source:

  * `src/database.py`   — tokenizer (`extract_search_keywords`,
    `_add_chinese_ngrams`), weighted search (`search_memories`), and
    `save_memory`;
  * `src/memory_extractor.py` — the extraction client (`extract_memories`);
  * `src/main.py`       — the curation pipeline
    (`process_memories_background`) and the import endpoints;
  * `src/seed_memories_example.py` — the seed import loop.

Strings are modelled as `List Char`, timestamps and scores as exact
rationals (`ℚ`; the SQL computes with floats), and the database as a
`List Memory` threaded explicitly.  Fallible effects (the `UPDATE` of
`last_accessed`, the HTTP call of the extractor) are modelled with
`Except`/an explicit outcome datatype.
-/

/- ============================================================
   Tokenizer  (src/database.py, lines 96-147)
   ============================================================ -/

/-- `CJK_PATTERN = re.compile(r'[一-鿿㐀-䶿]')`. -/
def isCJK (c : Char) : Bool :=
  (0x4e00 ≤ c.toNat && c.toNat ≤ 0x9fff) || (0x3400 ≤ c.toNat && c.toNat ≤ 0x4dbf)

/-- Character class of `EN_WORD_PATTERN = re.compile(r'[a-zA-Z0-9]+')`. -/
def isAlnumAscii (c : Char) : Bool := c.isAlpha || c.isDigit

/-- Decomposition of a character list into its maximal runs of characters
satisfying `p`, carrying the run currently being accumulated.  This is the
semantics both of `finditer` on `[a-zA-Z0-9]+` / `\d{2,}` (maximal matches)
and of the character-scanning loop of `extract_search_keywords`
(src/database.py lines 124-133), which accumulates consecutive CJK
characters and flushes the accumulator at every non-CJK character and at
the end of the input. -/
def runsAux (p : Char → Bool) : List Char → List Char → List (List Char)
  | acc, [] => if acc.isEmpty then [] else [acc]
  | acc, c :: cs =>
    if p c then runsAux p (acc ++ [c]) cs
    else if acc.isEmpty then runsAux p [] cs
    else acc :: runsAux p [] cs

/-- All maximal runs of `p`-characters of the input, in order. -/
def runs (p : Char → Bool) (l : List Char) : List (List Char) := runsAux p [] l

/-- The contiguous substrings `text[i:i+n]` for `i in range(len(text)-(n-1))`,
as in the two sliding-window loops of `_add_chinese_ngrams`. -/
def windows (n : Nat) (l : List Char) : List (List Char) :=
  (List.range (l.length - (n - 1))).map fun i => (l.drop i).take n

/-- `_add_chinese_ngrams` (src/database.py lines 138-147): the whole run when
its length is at most 3, every 2-character window, and every 3-character
window when the length is at least 3. -/
def addChineseNgrams (text : List Char) : Finset (List Char) :=
  (if text.length ≤ 3 then ({text} : Finset (List Char)) else ∅)
    ∪ (windows 2 text).toFinset
    ∪ (if 3 ≤ text.length then (windows 3 text).toFinset else ∅)

/-- Tokens contributed by `EN_WORD_PATTERN.finditer`: maximal alphanumeric
runs of length at least 2 (src/database.py lines 116-119). -/
def enKeywords (q : List Char) : Finset (List Char) :=
  ((runs isAlnumAscii q).filter fun w => 2 ≤ w.length).toFinset

/-- Tokens contributed by `NUM_PATTERN.finditer` (`\d{2,}`): maximal digit
runs of length at least 2 (src/database.py lines 121-122).  The model takes
`\d` to be the ASCII digits. -/
def numKeywords (q : List Char) : Finset (List Char) :=
  ((runs Char.isDigit q).filter fun w => 2 ≤ w.length).toFinset

/-- Tokens contributed by the CJK scanning loop: `_add_chinese_ngrams` is
applied to every maximal CJK run of length at least 2
(src/database.py lines 124-133). -/
def cjkKeywords (q : List Char) : Finset (List Char) :=
  ((runs isCJK q).filter fun w => 2 ≤ w.length).foldr
    (fun r acc => addChineseNgrams r ∪ acc) ∅

/-- `extract_search_keywords` (src/database.py lines 101-135).  The Python
function returns `list(keywords)` of a `set`; the model keeps the set. -/
def extract_search_keywords (q : List Char) : Finset (List Char) :=
  enKeywords q ∪ numKeywords q ∪ cjkKeywords q

/- ============================================================
   Ranker / store  (src/database.py, lines 150-254)
   ============================================================ -/

/-- A row of the `memories` table (src/database.py lines 67-76).
`created_at` and `last_accessed` are epoch timestamps in seconds,
modelled as exact rationals. -/
structure Memory where
  id : Nat
  content : List Char
  importance : Int
  source_session : List Char
  created_at : ℚ
  last_accessed : ℚ
deriving DecidableEq

/-- Default of `WEIGHT_KEYWORD = float(os.getenv("WEIGHT_KEYWORD", "0.5"))`. -/
def WEIGHT_KEYWORD : ℚ := 0.5

/-- Default of `WEIGHT_IMPORTANCE = float(os.getenv("WEIGHT_IMPORTANCE", "0.3"))`. -/
def WEIGHT_IMPORTANCE : ℚ := 0.3

/-- Default of `WEIGHT_RECENCY = float(os.getenv("WEIGHT_RECENCY", "0.2"))`. -/
def WEIGHT_RECENCY : ℚ := 0.2

/-- The three configurable search weights (src/database.py lines 19-21). -/
structure Weights where
  keyword : ℚ
  importance : ℚ
  recency : ℚ

/-- The weights at their environment defaults 0.5 / 0.3 / 0.2. -/
def defaultWeights : Weights := ⟨WEIGHT_KEYWORD, WEIGHT_IMPORTANCE, WEIGHT_RECENCY⟩

/-- `content ILIKE '%' || kw || '%'`: case-insensitive substring containment.
PostgreSQL's ILIKE lower-cases both sides; the model lower-cases with the
ASCII `Char.toLower` (the identity on CJK characters).  The extracted tokens
are alphanumeric/CJK only, so they contain no `%`/`_` wildcards. -/
def ilikeMatch (content kw : List Char) : Prop :=
  (kw.map Char.toLower) <:+: (content.map Char.toLower)

instance (content kw : List Char) : Decidable (ilikeMatch content kw) :=
  List.decidableInfix _ _

/-- The `hit_count` expression: one point per keyword the content matches
(src/database.py lines 205-212).  The keywords form a set, so this counts
distinct matching tokens. -/
def hitCount (kws : Finset (List Char)) (content : List Char) : Nat :=
  (kws.filter fun kw => ilikeMatch content kw).card

/-- A row returned by the search query: the selected columns plus the
computed `hit_count` and `score` (src/database.py lines 224-237). -/
structure SearchRow where
  id : Nat
  content : List Char
  importance : Int
  created_at : ℚ
  hit_count : Nat
  score : ℚ
deriving DecidableEq

/-- One output row of the SELECT: the score is
`W_keyword * hit_count / max_hits + W_importance * importance / 10 +
 W_recency * (1 / (1 + age_seconds / 86400))`
with `max_hits` the number of distinct keywords
(src/database.py lines 224-237). -/
def toSearchRow (W : Weights) (kws : Finset (List Char)) (now : ℚ) (m : Memory) : SearchRow :=
  { id := m.id
    content := m.content
    importance := m.importance
    created_at := m.created_at
    hit_count := hitCount kws m.content
    score := W.keyword * (hitCount kws m.content : ℚ) / (kws.card : ℚ)
      + W.importance * (m.importance : ℚ) / 10
      + W.recency * (1 / (1 + (now - m.created_at) / 86400)) }

/-- The ordering of `ORDER BY score DESC, importance DESC, created_at DESC`:
`a` may precede `b` iff `a`'s key (score, importance, created_at) is
lexicographically at least `b`'s. -/
def rankLE (a b : SearchRow) : Prop :=
  b.score < a.score
    ∨ (b.score = a.score
        ∧ (b.importance < a.importance
            ∨ (b.importance = a.importance ∧ b.created_at ≤ a.created_at)))

instance : DecidableRel rankLE := fun a b => by unfold rankLE; infer_instance

instance : IsTotal SearchRow rankLE where
  total a b := by
    unfold rankLE
    rcases lt_trichotomy a.score b.score with h | h | h
    · exact Or.inr (Or.inl h)
    · rcases lt_trichotomy a.importance b.importance with h2 | h2 | h2
      · exact Or.inr (Or.inr ⟨h, Or.inl h2⟩)
      · rcases le_total b.created_at a.created_at with h3 | h3
        · exact Or.inl (Or.inr ⟨h.symm, Or.inr ⟨h2.symm, h3⟩⟩)
        · exact Or.inr (Or.inr ⟨h, Or.inr ⟨h2, h3⟩⟩)
      · exact Or.inl (Or.inr ⟨h.symm, Or.inl h2⟩)
    · exact Or.inl (Or.inl h)

instance : IsTrans SearchRow rankLE where
  trans a b c hab hbc := by
    unfold rankLE at *
    rcases hab with h1 | ⟨e1, h1⟩
    · rcases hbc with h2 | ⟨e2, h2⟩
      · exact Or.inl (lt_trans h2 h1)
      · exact Or.inl (e2 ▸ h1)
    · rcases hbc with h2 | ⟨e2, h2⟩
      · exact Or.inl (e1 ▸ h2)
      · refine Or.inr ⟨e2.trans e1, ?_⟩
        rcases h1 with h1 | ⟨f1, h1⟩
        · rcases h2 with h2 | ⟨f2, h2⟩
          · exact Or.inl (lt_trans h2 h1)
          · exact Or.inl (f2 ▸ h1)
        · rcases h2 with h2 | ⟨f2, h2⟩
          · exact Or.inl (f1 ▸ h2)
          · exact Or.inr ⟨f2.trans f1, le_trans h2 h1⟩

/-- The rows produced by the search SELECT (src/database.py lines 198-239):
if the keyword set is empty the function returns early with no rows;
otherwise candidates are the memories matching at least one keyword
(the `WHERE` clause), each is given its `hit_count` and `score`, the rows
are ordered by `score DESC, importance DESC, created_at DESC`, and the
list is truncated to `limit`. -/
def searchResults (W : Weights) (now : ℚ) (st : List Memory) (q : List Char)
    (limit : Nat) : List SearchRow :=
  let kws := extract_search_keywords q
  if kws = ∅ then []
  else
    (((st.filter fun m => decide (∃ kw ∈ kws, ilikeMatch m.content kw)).map
        (toSearchRow W kws now)).insertionSort rankLE).take limit

/-- The `UPDATE memories SET last_accessed = NOW() WHERE id = ANY($1)`
applied to the ids of the returned rows (src/database.py lines 246-250). -/
def stampAccessed (st : List Memory) (ids : List Nat) (now : ℚ) : List Memory :=
  st.map fun m => if m.id ∈ ids then { m with last_accessed := now } else m

/-- `search_memories` (src/database.py lines 186-254).  The boolean
`updateOk` models whether the `last_accessed` UPDATE statement succeeds;
the code does not guard that statement with a try/except, so a failing
update raises out of `search_memories`, modelled as `Except.error`.
With an empty keyword set the function returns `[]` before touching the
pool; with an empty result set the UPDATE is skipped. -/
def search_memories (W : Weights) (now : ℚ) (st : List Memory) (q : List Char)
    (limit : Nat) (updateOk : Bool) : Except Unit (List SearchRow × List Memory) :=
  let kws := extract_search_keywords q
  if kws = ∅ then .ok ([], st)
  else
    let res := searchResults W now st q limit
    if res.isEmpty then .ok (res, st)
    else if updateOk then .ok (res, stampAccessed st (res.map SearchRow.id) now)
    else .error ()

/-- `save_memory` (src/database.py lines 177-183): a single INSERT; the
serial `id` is the next value of the sequence, `created_at` and
`last_accessed` default to `NOW()`. -/
def save_memory (st : List Memory) (nextId : Nat) (now : ℚ) (content : List Char)
    (importance : Int) (source_session : List Char) : List Memory × Nat :=
  (st ++ [{ id := nextId, content := content, importance := importance,
            source_session := source_session, created_at := now,
            last_accessed := now }], nextId + 1)

/- ============================================================
   JSON values and a model of json.loads
   (library behaviour used by src/memory_extractor.py line 147)
   ============================================================ -/

/-- Parsed JSON values.  The model restricts JSON numbers to integers and
strings to escape-free strings; every payload appearing in the claims is
within this fragment. -/
inductive Json where
  | null
  | bool (b : Bool)
  | num (n : Int)
  | str (s : List Char)
  | arr (elems : List Json)
  | obj (fields : List (List Char × Json))

/-- JSON insignificant whitespace. -/
def jsonWs (c : Char) : Bool := c = ' ' || c = '\t' || c = '\n' || c = '\r'

def skipWs (s : List Char) : List Char := s.dropWhile jsonWs

/-- Body of a JSON string after the opening quote: the characters up to the
closing quote (no escape sequences in the modelled fragment). -/
def parseStringBody : List Char → Option (List Char × List Char)
  | [] => none
  | '"' :: rest => some ([], rest)
  | '\\' :: _ => none
  | c :: rest => (parseStringBody rest).map fun p => (c :: p.1, p.2)

def digitsToNat (ds : List Char) : Option Nat :=
  if ds.isEmpty then none
  else if ds.all Char.isDigit then
    some (ds.foldl (fun a c => a * 10 + (c.toNat - 48)) 0)
  else none

def parseNum (s : List Char) : Option (Int × List Char) :=
  match s with
  | '-' :: rest =>
    let ds := rest.takeWhile Char.isDigit
    (digitsToNat ds).map fun n => (-(n : Int), rest.drop ds.length)
  | _ =>
    let ds := s.takeWhile Char.isDigit
    (digitsToNat ds).map fun n => ((n : Int), s.drop ds.length)

mutual

/-- Fuel-indexed recursive-descent parser for one JSON value. -/
def parseValue : Nat → List Char → Option (Json × List Char)
  | 0, _ => none
  | fuel + 1, s =>
    match skipWs s with
    | 'n' :: 'u' :: 'l' :: 'l' :: rest => some (.null, rest)
    | 't' :: 'r' :: 'u' :: 'e' :: rest => some (.bool true, rest)
    | 'f' :: 'a' :: 'l' :: 's' :: 'e' :: rest => some (.bool false, rest)
    | '"' :: rest => (parseStringBody rest).map fun p => (.str p.1, p.2)
    | '[' :: rest =>
      (match skipWs rest with
       | ']' :: rest2 => some (.arr [], rest2)
       | other => (parseArrayItems fuel other).map fun p => (.arr p.1, p.2))
    | '{' :: rest =>
      (match skipWs rest with
       | '}' :: rest2 => some (.obj [], rest2)
       | other => (parseObjItems fuel other).map fun p => (.obj p.1, p.2))
    | other => (parseNum other).map fun p => (Json.num p.1, p.2)

/-- The elements of a non-empty JSON array after its `[`. -/
def parseArrayItems : Nat → List Char → Option (List Json × List Char)
  | 0, _ => none
  | fuel + 1, s =>
    match parseValue fuel s with
    | none => none
    | some (j, rest) =>
      match skipWs rest with
      | ',' :: rest2 => (parseArrayItems fuel rest2).map fun p => (j :: p.1, p.2)
      | ']' :: rest2 => some ([j], rest2)
      | _ => none

/-- The members of a non-empty JSON object after its opening brace. -/
def parseObjItems : Nat → List Char → Option (List (List Char × Json) × List Char)
  | 0, _ => none
  | fuel + 1, s =>
    match skipWs s with
    | '"' :: rest =>
      (match parseStringBody rest with
       | none => none
       | some (key, rest2) =>
         match skipWs rest2 with
         | ':' :: rest3 =>
           (match parseValue fuel rest3 with
            | none => none
            | some (v, rest4) =>
              match skipWs rest4 with
              | ',' :: rest5 =>
                (parseObjItems fuel rest5).map fun p => ((key, v) :: p.1, p.2)
              | '}' :: rest5 => some ([(key, v)], rest5)
              | _ => none)
         | _ => none)
    | _ => none

end

/-- Model of Python's `json.loads`: the whole input, up to surrounding
whitespace, must be a single JSON value; `none` models a raised
`json.JSONDecodeError`. -/
def loads (s : List Char) : Option Json :=
  match parseValue (s.length + 1) s with
  | some (j, rest) => if (skipWs rest).isEmpty then some j else none
  | none => none

/- ============================================================
   Other Python library behaviour used by the extractor
   ============================================================ -/

/-- Characters stripped by Python's `str.strip()` (the model covers the
ASCII whitespace that occurs in the payloads of interest). -/
def isPySpace (c : Char) : Bool := c.isWhitespace

/-- `text.strip()`. -/
def pyStrip (s : List Char) : List Char :=
  (((s.dropWhile isPySpace).reverse).dropWhile isPySpace).reverse

/-- Whether a string is already stripped: its first and last characters
(when it is non-empty) are not whitespace. -/
def pyStripped (s : List Char) : Bool :=
  (match s.head? with | none => true | some c => !isPySpace c)
    && (match s.reverse.head? with | none => true | some c => !isPySpace c)

/-- Python's `str()` on a decoded JSON value.  Real Python renders list
and dict values with their `repr`; the model abbreviates those two cases,
as no claim concerns a non-string `content` value. -/
def pyStr : Json → List Char
  | .str s => s
  | .num n => (toString n).toList
  | .bool true => "True".toList
  | .bool false => "False".toList
  | .null => "None".toList
  | .arr _ => "<list>".toList
  | .obj _ => "<dict>".toList

/-- `int(s)` on a string: optional surrounding whitespace, an optional
sign, then decimal digits; anything else raises `ValueError` (`none`). -/
def intOfString (s : List Char) : Option Int :=
  match pyStrip s with
  | '+' :: ds => (digitsToNat ds).map fun n => (n : Int)
  | '-' :: ds => (digitsToNat ds).map fun n => -(n : Int)
  | ds => (digitsToNat ds).map fun n => (n : Int)

/-- Python's `int(x)` on a decoded JSON value: integers are kept, booleans
coerce to 0/1, numeric strings are parsed, and `None`/lists/dicts raise
`TypeError` (`none`).  (JSON floats are outside the modelled fragment;
Python would truncate them.) -/
def pyInt : Json → Option Int
  | .num n => some n
  | .bool b => some (if b then 1 else 0)
  | .str s => intOfString s
  | _ => none

/-- `dict.get`-style lookup on the fields of a decoded JSON object.
Python's `json.loads` keeps the last occurrence of a duplicated key, hence
the search over the reversed field list. -/
def lookupField (fields : List (List Char × Json)) (key : List Char) : Option Json :=
  (fields.reverse.find? fun kv => decide (kv.1 = key)).map Prod.snd

/- ============================================================
   Extraction client  (src/memory_extractor.py, lines 68-169)
   ============================================================ -/

/-- One chat message handed to `extract_memories`. -/
structure ExtMsg where
  role : List Char
  content : List Char
deriving DecidableEq

/-- One extracted memory candidate `{"content": ..., "importance": ...}`. -/
structure ExtractedMem where
  content : List Char
  importance : Int
deriving DecidableEq

/-- The behaviour of the extraction HTTP call, as seen by the code:
either some step of the request raises (connection errors, timeouts,
a non-JSON response body — all caught by the `except Exception` handler),
or a response with a status code and the text payload
`data["choices"][0]["message"]["content"]`. -/
inductive HttpOutcome where
  | transportError
  | response (status : Nat) (payload : List Char)

/-- The `conversation_text` accumulation of src/memory_extractor.py
lines 87-94: user and assistant messages are rendered with role markers,
any other role is skipped. -/
def conversationText (msgs : List ExtMsg) : List Char :=
  msgs.foldl
    (fun acc m =>
      if m.role = "user".toList then acc ++ "用户: ".toList ++ m.content ++ ['\n']
      else if m.role = "assistant".toList then acc ++ "AI: ".toList ++ m.content ++ ['\n']
      else acc)
    []

/-- The markdown-fence cleanup of src/memory_extractor.py lines 136-144:
strip, drop a leading ```` ```json ````, drop a leading ```` ``` ````,
drop a trailing ```` ``` ````, strip again. -/
def cleanLLMText (t : List Char) : List Char :=
  let t1 := pyStrip t
  let t2 := if "```json".toList <+: t1 then t1.drop 7 else t1
  let t3 := if "```".toList <+: t2 then t2.drop 3 else t2
  let t4 := if "```".toList <:+ t3 then t3.take (t3.length - 3) else t3
  pyStrip t4

/-- The candidate-validation loop of src/memory_extractor.py lines 153-159.
An element that is not an object or has no `"content"` key is skipped
individually; `int(mem.get("importance", 5))` raising (a non-coercible
importance) aborts the whole call, which the outer `except Exception`
handler turns into an empty result — modelled as `Except.error`. -/
def validateCandidates : List Json → Except Unit (List ExtractedMem)
  | [] => .ok []
  | j :: rest =>
    match j with
    | .obj f =>
      match lookupField f ("content".toList) with
      | some c =>
        (match pyInt ((lookupField f ("importance".toList)).getD (.num 5)) with
         | some imp =>
           (validateCandidates rest).map fun l => ⟨pyStr c, imp⟩ :: l
         | none => .error ())
      | none => validateCandidates rest
    | _ => validateCandidates rest

/-- Whether one decoded candidate makes `int(mem.get("importance", 5))`
raise: it is an object with a `"content"` key whose importance value is
not coercible to an integer. -/
def candAborts (j : Json) : Bool :=
  match j with
  | .obj f =>
    ((lookupField f ("content".toList)).isSome)
      && ((pyInt ((lookupField f ("importance".toList)).getD (.num 5))).isNone)
  | _ => false

/-- The candidate kept for one decoded array element, if any: the element
must be an object with a `"content"` key; its content is `str(...)`-rendered
and its importance is `int(...)`-coerced, defaulting to 5 when absent. -/
def candOf (j : Json) : Option ExtractedMem :=
  match j with
  | .obj f =>
    match lookupField f ("content".toList) with
    | some c =>
      (pyInt ((lookupField f ("importance".toList)).getD (.num 5))).map
        fun imp => ⟨pyStr c, imp⟩
    | none => none
  | _ => none

/-- `extract_memories` (src/memory_extractor.py lines 68-169).
`apiKeySet` models whether `API_KEY` is non-empty; `existing` is the
existing-memories list (it only shapes the prompt, never the result);
`out` is the behaviour of the HTTP call.  Every failure path of the code
returns `[]`. -/
def extract_memories (apiKeySet : Bool) (msgs : List ExtMsg)
    (existing : List (List Char)) (out : HttpOutcome) : List ExtractedMem :=
  if !apiKeySet then []
  else if msgs.isEmpty then []
  else if (pyStrip (conversationText msgs)).isEmpty then []
  else
    match out with
    | .transportError => []
    | .response status payload =>
      if status ≠ 200 then []
      else
        match loads (cleanLLMText payload) with
        | some (.arr elems) =>
          (match validateCandidates elems with
           | .ok l => l
           | .error _ => [])
        | _ => []

/- ============================================================
   Curation pipeline  (src/main.py, lines 149-194)
   ============================================================ -/

/-- The `META_BLACKLIST` of src/main.py lines 166-172. -/
def META_BLACKLIST : List (List Char) :=
  ["记忆库".toList, "记忆系统".toList, "检索".toList, "没有被记录".toList,
   "没有被提取".toList, "记忆遗漏".toList, "尚未被记录".toList,
   "写入不完整".toList, "检索功能".toList, "系统没有返回".toList,
   "关键词匹配".toList, "语义匹配".toList, "语义检索".toList, "阈值".toList,
   "数据库".toList, "seed".toList, "导入".toList, "部署".toList,
   "bug".toList, "debug".toList, "端口".toList, "网关".toList]

/-- `any(kw in content for kw in META_BLACKLIST)`: case-sensitive
substring containment of some denylist term. -/
def blacklisted (content : List Char) : Bool :=
  META_BLACKLIST.any fun kw => decide (kw <:+: content)

/-- The filter-and-commit tail of `process_memories_background`
(src/main.py lines 174-187): denylisted candidates are dropped, every
surviving candidate is inserted via `save_memory` with `source_session`
set to the originating session id. -/
def process_memories_background (now : ℚ) (session_id : List Char)
    (new_memories : List ExtractedMem) (st : List Memory) (nextId : Nat) :
    List Memory × Nat :=
  (new_memories.filter fun m => !blacklisted m.content).foldl
    (fun stn m => save_memory stn.1 stn.2 now m.content m.importance session_id)
    (st, nextId)

/- ============================================================
   Import paths  (src/main.py lines 821-922, seed_memories_example.py)
   ============================================================ -/

/-- One record of a JSON import request: `mem.get("content", "")`,
`mem.get("importance", 5)` and `mem.get("source_session", "json-import")`
give the fields below, with `none` for an absent key. -/
structure ImportRecord where
  content : List Char
  importance : Option Int
  source_session : Option (List Char)

/-- `SELECT COUNT(*) FROM memories WHERE content = $1` compared with 0. -/
def contentExists (st : List Memory) (c : List Char) : Bool :=
  st.any fun m => decide (m.content = c)

/-- The loop of the `/import/memories` handler (src/main.py lines 892-912):
records with empty content are ignored, records whose exact content already
exists are skipped, and the rest are inserted with the defaults of the
`mem.get` calls.  Returns the final (store, next id) with the
(imported, skipped) counters. -/
def import_memories (now : ℚ) :
    List ImportRecord → List Memory × Nat → (List Memory × Nat) × Nat × Nat
  | [], stn => (stn, 0, 0)
  | r :: rest, stn =>
    if r.content.isEmpty then import_memories now rest stn
    else if contentExists stn.1 r.content then
      let p := import_memories now rest stn
      (p.1, p.2.1, p.2.2 + 1)
    else
      let p := import_memories now rest
        (save_memory stn.1 stn.2 now r.content (r.importance.getD 5)
          (r.source_session.getD ("json-import".toList)))
      (p.1, p.2.1 + 1, p.2.2)

/-- The `/import/text` handler with `skip_scoring` set (src/main.py
lines 835-863): every line becomes `{"content": line, "importance": 5}` and
runs through the same check-then-insert loop with
`source_session="text-import"`. -/
def import_text_memories (now : ℚ) (lines : List (List Char))
    (stn : List Memory × Nat) : (List Memory × Nat) × Nat × Nat :=
  import_memories now
    (lines.map fun t => ⟨t, some 5, some ("text-import".toList)⟩) stn

/-- The seed-import loop of `run_seed_import`
(src/seed_memories_example.py lines 40-62): each seed's importance is
passed through verbatim, `source_session="seed-import"`, duplicates by
exact content are skipped. -/
def run_seed_import (now : ℚ) :
    List (List Char × Int) → List Memory × Nat → (List Memory × Nat) × Nat × Nat
  | [], stn => (stn, 0, 0)
  | (c, imp) :: rest, stn =>
    if contentExists stn.1 c then
      let p := run_seed_import now rest stn
      (p.1, p.2.1, p.2.2 + 1)
    else
      let p := run_seed_import now rest
        (save_memory stn.1 stn.2 now c imp ("seed-import".toList))
      (p.1, p.2.1 + 1, p.2.2)

/- ============================================================
   Auxiliary predicates and concrete instances used in theorems
   ============================================================ -/

/-- No two adjacent characters of the list both satisfy `p` (so every
maximal `p`-run has length at most 1). -/
def noAdjPair (p : Char → Bool) : List Char → Bool
  | [] => true
  | [_] => true
  | a :: b :: rest => (!(p a && p b)) && noAdjPair p (b :: rest)

/-- The trailing markdown fence `"\n```"`. -/
def fenceEnd : List Char := "\n```".toList

/-- A payload wrapped in ```` ```json ```` fences. -/
def fenceWrapJson (s : List Char) : List Char := "```json\n".toList ++ s ++ fenceEnd

/-- A payload wrapped in plain ```` ``` ```` fences. -/
def fenceWrapPlain (s : List Char) : List Char := "```\n".toList ++ s ++ fenceEnd

/-- A message list on which `extract_memories` reaches the HTTP call. -/
def goodMsgs : List ExtMsg := [⟨"user".toList, "你好".toList⟩]

/-- An extraction response that is a JSON array holding one well-formed
candidate and one candidate whose importance is not coercible to `int`. -/
def payloadBadImportance : List Char :=
  "[\x7b\"content\": \"a\"\x7d, \x7b\"content\": \"b\", \"importance\": \"x\"\x7d]".toList

/-- A fenced extraction response holding one well-formed candidate. -/
def payloadFencedArray : List Char :=
  "```json\n[\x7b\"content\": \"x\"\x7d]\n```".toList

/-- A well-formed unfenced JSON-array payload with one candidate. -/
def payloadPlainArray : List Char :=
  "[\x7b\"content\": \"春节吃饺子\", \"importance\": 7\x7d]".toList

/-- A one-memory store whose single row matches the query `"春节"`. -/
def storeOne : List Memory :=
  [⟨1, "春节快乐".toList, 5, "seed-import".toList, 0, 0⟩]

def queryOne : List Char := "春节".toList

/-- The two-memory store of the spec's search scenario. -/
def storeTwo : List Memory :=
  [⟨1, "春节准备去妈妈家吃团年饭".toList, 7, "s1".toList, 0, 0⟩,
   ⟨2, "今天天气很好".toList, 5, "s1".toList, 0, 0⟩]

def queryTwo : List Char := "春节干了什么".toList

/-- Two extraction candidates: one containing the denylisted term
`"数据库"`, one clean. -/
def candsTwo : List ExtractedMem :=
  [⟨"用户说数据库坏了".toList, 9⟩, ⟨"用户喜欢吃火锅".toList, 7⟩]

/- ============================================================
   Tokenizer lemmas
   ============================================================ -/

lemma take_len_append {α : Type} (s l : List α) (i : Nat) :
    (s ++ l).take (s.length + i) = s ++ l.take i := by
  induction s with
  | nil => simp
  | cons a u ih =>
    rw [List.cons_append, List.length_cons,
      show u.length + 1 + i = (u.length + i) + 1 by omega, List.take_succ_cons, ih,
      List.cons_append]

lemma infix_mem_windows {n : Nat} (hn : 1 ≤ n) {w r : List Char}
    (hw : w.length = n) (h : w <:+: r) : w ∈ windows n r := by
  obtain ⟨s, t, hst⟩ := h
  subst hst
  have hlen : (s ++ w ++ t).length = s.length + n + t.length := by
    simp [List.length_append, hw]; omega
  refine List.mem_map.mpr ⟨s.length, List.mem_range.mpr ?_, ?_⟩
  · omega
  · rw [List.append_assoc, List.drop_left, ← hw, List.take_left]

lemma length_of_mem_windows {n : Nat} {w r : List Char}
    (h : w ∈ windows n r) : w.length = n := by
  obtain ⟨i, hi, rfl⟩ := List.mem_map.mp h
  have hi' := List.mem_range.mp hi
  rw [List.length_take, List.length_drop]
  omega

lemma mem_foldr_ngrams {x : List Char} (l : List (List Char)) :
    x ∈ l.foldr (fun r acc => addChineseNgrams r ∪ acc) ∅
      ↔ ∃ r ∈ l, x ∈ addChineseNgrams r := by
  induction l with
  | nil => simp
  | cons r rest ih => simp [List.foldr, Finset.mem_union, ih]

lemma whole_mem_addChineseNgrams {r : List Char} (h : r.length ≤ 3) :
    r ∈ addChineseNgrams r := by
  unfold addChineseNgrams
  rw [if_pos h]
  simp

lemma window2_mem_addChineseNgrams {r w : List Char} (h : w ∈ windows 2 r) :
    w ∈ addChineseNgrams r := by
  unfold addChineseNgrams
  refine Finset.mem_union.mpr (Or.inl (Finset.mem_union.mpr (Or.inr ?_)))
  exact List.mem_toFinset.mpr h

lemma window3_mem_addChineseNgrams {r w : List Char} (h3 : 3 ≤ r.length)
    (h : w ∈ windows 3 r) : w ∈ addChineseNgrams r := by
  unfold addChineseNgrams
  rw [if_pos h3]
  exact Finset.mem_union.mpr (Or.inr (List.mem_toFinset.mpr h))

lemma two_le_length_of_mem_addChineseNgrams {r x : List Char} (hr : 2 ≤ r.length)
    (hx : x ∈ addChineseNgrams r) : 2 ≤ x.length := by
  unfold addChineseNgrams at hx
  rcases Finset.mem_union.mp hx with hx | hx
  · rcases Finset.mem_union.mp hx with hx | hx
    · split at hx
      · rw [Finset.mem_singleton] at hx; subst hx; exact hr
      · simp at hx
    · have := length_of_mem_windows (List.mem_toFinset.mp hx); omega
  · split at hx
    · have := length_of_mem_windows (List.mem_toFinset.mp hx); omega
    · simp at hx

lemma mem_cjkKeywords_of_run {q r x : List Char} (hr : r ∈ runs isCJK q)
    (h2 : 2 ≤ r.length) (hx : x ∈ addChineseNgrams r) : x ∈ cjkKeywords q := by
  unfold cjkKeywords
  refine (mem_foldr_ngrams _).mpr ⟨r, ?_, hx⟩
  exact List.mem_filter.mpr ⟨hr, by simpa using h2⟩

lemma mem_keywords_of_cjk {q x : List Char} (hx : x ∈ cjkKeywords q) :
    x ∈ extract_search_keywords q :=
  Finset.mem_union.mpr (Or.inr hx)

lemma two_le_length_of_mem_keywords {q x : List Char}
    (hx : x ∈ extract_search_keywords q) : 2 ≤ x.length := by
  unfold extract_search_keywords at hx
  rcases Finset.mem_union.mp hx with hx | hx
  · rcases Finset.mem_union.mp hx with hx | hx
    · unfold enKeywords at hx
      have := (List.mem_filter.mp (List.mem_toFinset.mp hx)).2
      simpa using this
    · unfold numKeywords at hx
      have := (List.mem_filter.mp (List.mem_toFinset.mp hx)).2
      simpa using this
  · unfold cjkKeywords at hx
    obtain ⟨r, hrf, hxr⟩ := (mem_foldr_ngrams _).mp hx
    have h2 : 2 ≤ r.length := by
      have := (List.mem_filter.mp hrf).2
      simpa using this
    exact two_le_length_of_mem_addChineseNgrams h2 hxr

/-- C2: for every maximal CJK run of length at least 2 in the input, the
extracted keyword set contains the whole run when its length is at most 3,
every contiguous 2-character substring of the run, and every contiguous
3-character substring when the run's length is at least 3; and no token of
the keyword set has length below 2 (so a run of length below 2 contributes
no token). -/
theorem cjk_run_ngram_tokens (q r : List Char) (hr : r ∈ runs isCJK q)
    (h2 : 2 ≤ r.length) :
    (r.length ≤ 3 → r ∈ extract_search_keywords q)
      ∧ (∀ w : List Char, w.length = 2 → w <:+: r → w ∈ extract_search_keywords q)
      ∧ (3 ≤ r.length → ∀ w : List Char, w.length = 3 → w <:+: r →
          w ∈ extract_search_keywords q)
      ∧ (∀ t ∈ extract_search_keywords q, 2 ≤ t.length) := by
  refine ⟨fun h3 => ?_, fun w hw hinf => ?_, fun h3 w hw hinf => ?_,
    fun t ht => two_le_length_of_mem_keywords ht⟩
  · exact mem_keywords_of_cjk
      (mem_cjkKeywords_of_run hr h2 (whole_mem_addChineseNgrams h3))
  · exact mem_keywords_of_cjk (mem_cjkKeywords_of_run hr h2
      (window2_mem_addChineseNgrams (infix_mem_windows (by omega) hw hinf)))
  · exact mem_keywords_of_cjk (mem_cjkKeywords_of_run hr h2
      (window3_mem_addChineseNgrams h3 (infix_mem_windows (by omega) hw hinf)))

/-- Witness for C2 at the input `"x春节干了a"`, whose single maximal CJK run
is `"春节干了"`. -/
theorem cjk_run_ngram_tokens_witness :
    (("春节干了".toList).length ≤ 3 → "春节干了".toList ∈ extract_search_keywords ("x春节干了a".toList))
      ∧ (∀ w : List Char, w.length = 2 → w <:+: "春节干了".toList →
          w ∈ extract_search_keywords ("x春节干了a".toList))
      ∧ (3 ≤ ("春节干了".toList).length → ∀ w : List Char, w.length = 3 →
          w <:+: "春节干了".toList → w ∈ extract_search_keywords ("x春节干了a".toList))
      ∧ (∀ t ∈ extract_search_keywords ("x春节干了a".toList), 2 ≤ t.length) :=
  cjk_run_ngram_tokens ("x春节干了a".toList) ("春节干了".toList) (by decide) (by decide)

/- ============================================================
   Empty-token-set lemmas (C8)
   ============================================================ -/

lemma noAdjPair_tail {p : Char → Bool} {c : Char} {l : List Char}
    (h : noAdjPair p (c :: l) = true) : noAdjPair p l = true := by
  cases l with
  | nil => rfl
  | cons b r =>
    simp only [noAdjPair, Bool.and_eq_true] at h
    exact h.2

lemma runsAux_short (p : Char → Bool) (l : List Char) :
    ∀ acc : List Char, (∀ a ∈ acc, p a = true) → acc.length ≤ 1 →
      noAdjPair p (acc ++ l) = true → ∀ r ∈ runsAux p acc l, r.length ≤ 1 := by
  induction l with
  | nil =>
    intro acc _ hlen _ r hr
    unfold runsAux at hr
    split at hr
    · simp at hr
    · rw [List.mem_singleton] at hr; subst hr; exact hlen
  | cons c cs ih =>
    intro acc hall hlen hchain r hr
    unfold runsAux at hr
    split at hr
    case isTrue hp =>
      rcases acc with _ | ⟨a, _ | ⟨b, rest⟩⟩
      · exact ih [c] (by intro a ha; rw [List.mem_singleton] at ha; subst ha; exact hp)
          (by simp) (by simpa using hchain) r hr
      · exfalso
        have hpa : p a = true := hall a (by simp)
        have hch : noAdjPair p (a :: c :: cs) = true := by simpa using hchain
        simp [noAdjPair, hpa, hp] at hch
      · simp at hlen
    case isFalse hp =>
      split at hr
      case isTrue hacc =>
        have hacc' : acc = [] := by
          cases acc with
          | nil => rfl
          | cons x xs => simp [List.isEmpty] at hacc
        subst hacc'
        exact ih [] (by simp) (by simp) (noAdjPair_tail (by simpa using hchain)) r hr
      case isFalse hacc =>
        rcases List.mem_cons.mp hr with h | h
        · subst h; exact hlen
        · rcases acc with _ | ⟨a, _ | ⟨b, rest⟩⟩
          · simp [List.isEmpty] at hacc
          · have hch : noAdjPair p (a :: c :: cs) = true := by simpa using hchain
            have h1 : noAdjPair p (c :: cs) = true := noAdjPair_tail hch
            exact ih [] (by simp) (by simp) (by simpa using noAdjPair_tail h1) r h
          · simp at hlen

lemma runs_short {p : Char → Bool} {q : List Char} (h : noAdjPair p q = true) :
    ∀ r ∈ runs p q, r.length ≤ 1 :=
  runsAux_short p q [] (by simp) (by simp) (by simpa using h)

lemma filter_short_eq_nil {p : Char → Bool} {q : List Char}
    (h : noAdjPair p q = true) :
    (runs p q).filter (fun w => 2 ≤ w.length) = [] := by
  rw [List.filter_eq_nil_iff]
  intro r hr
  have := runs_short h r hr
  simp only [decide_eq_true_eq]
  omega

lemma noAdjPair_alnum {q : List Char} (h1 : q.all (fun c => !c.isAlpha) = true)
    (h2 : noAdjPair Char.isDigit q = true) : noAdjPair isAlnumAscii q = true := by
  induction q with
  | nil => rfl
  | cons a l ih =>
    cases l with
    | nil => rfl
    | cons b r =>
      simp only [List.all_cons, Bool.and_eq_true, Bool.not_eq_true'] at h1
      obtain ⟨ha, hb, hrest⟩ := h1
      simp only [noAdjPair, Bool.and_eq_true] at h2 ⊢
      refine ⟨?_, ih (by simp [List.all_cons, hb, hrest]) h2.2⟩
      have := h2.1
      simp only [isAlnumAscii, ha, hb, Bool.false_or]
      exact this

lemma extract_keywords_empty {q : List Char}
    (h1 : q.all (fun c => !c.isAlpha) = true)
    (h2 : noAdjPair Char.isDigit q = true)
    (h3 : noAdjPair isCJK q = true) :
    extract_search_keywords q = ∅ := by
  have hen : enKeywords q = ∅ := by
    unfold enKeywords; rw [filter_short_eq_nil (noAdjPair_alnum h1 h2)]; rfl
  have hnum : numKeywords q = ∅ := by
    unfold numKeywords; rw [filter_short_eq_nil h2]; rfl
  have hcjk : cjkKeywords q = ∅ := by
    unfold cjkKeywords; rw [filter_short_eq_nil h3]; rfl
  unfold extract_search_keywords
  rw [hen, hnum, hcjk]
  simp

/-- C8: a query containing no Latin letter, no two adjacent digits and no
two adjacent CJK characters (this includes the empty string) yields an
empty extracted token set, and the search returns an empty sequence with
the store untouched — regardless of whether the `last_accessed` update
could succeed, since the function returns before touching the pool. -/
theorem search_empty_token_set (W : Weights) (now : ℚ) (st : List Memory)
    (q : List Char) (limit : Nat) (updateOk : Bool)
    (h1 : q.all (fun c => !c.isAlpha) = true)
    (h2 : noAdjPair Char.isDigit q = true)
    (h3 : noAdjPair isCJK q = true) :
    extract_search_keywords q = ∅
      ∧ search_memories W now st q limit updateOk = .ok ([], st) := by
  have he := extract_keywords_empty h1 h2 h3
  refine ⟨he, ?_⟩
  simp [search_memories, he]

/-- Witness for C8 on a punctuation/isolated-character query. -/
theorem search_empty_token_set_witness :
    extract_search_keywords ("你 好, 1 2 3!".toList) = ∅
      ∧ search_memories defaultWeights 0 storeOne ("你 好, 1 2 3!".toList) 10 false
          = .ok ([], storeOne) :=
  search_empty_token_set defaultWeights 0 storeOne ("你 好, 1 2 3!".toList) 10 false
    (by decide) (by decide) (by decide)

/- ============================================================
   Search lemmas  (C1, C4, C7)
   ============================================================ -/

lemma searchResults_empty {W : Weights} {now : ℚ} {st : List Memory}
    {q : List Char} {limit : Nat} (h : extract_search_keywords q = ∅) :
    searchResults W now st q limit = [] := by
  simp [searchResults, h]

lemma searchResults_eq {W : Weights} {now : ℚ} {st : List Memory}
    {q : List Char} {limit : Nat} (h : ¬ extract_search_keywords q = ∅) :
    searchResults W now st q limit
      = (((st.filter fun m =>
            decide (∃ kw ∈ extract_search_keywords q, ilikeMatch m.content kw)).map
          (toSearchRow W (extract_search_keywords q) now)).insertionSort rankLE).take
          limit := by
  simp only [searchResults]
  rw [if_neg h]

lemma mem_searchResults {W : Weights} {now : ℚ} {st : List Memory}
    {q : List Char} {limit : Nat} {row : SearchRow}
    (hrow : row ∈ searchResults W now st q limit) :
    ∃ m ∈ st, (∃ kw ∈ extract_search_keywords q, ilikeMatch m.content kw)
      ∧ row = toSearchRow W (extract_search_keywords q) now m := by
  by_cases h : extract_search_keywords q = ∅
  · rw [searchResults_empty h] at hrow
    simp at hrow
  · rw [searchResults_eq h] at hrow
    have h1 := (List.take_sublist _ _).subset hrow
    have h2 := (List.perm_insertionSort rankLE _).mem_iff.mp h1
    obtain ⟨m, hm, rfl⟩ := List.mem_map.mp h2
    have hf := List.mem_filter.mp hm
    exact ⟨m, hf.1, of_decide_eq_true hf.2, rfl⟩

/-- C1: with a non-empty token set, every returned row's `hit_count` is the
number of distinct matching tokens of its content and its score is
`W_keyword · hit_count / |tokens| + W_importance · importance / 10 +
 W_recency · (1 / (1 + age_in_days))`; the returned sequence is sorted by
score descending with ties broken by importance then `created_at`
descending, and is truncated to `limit`; the weights default to
0.5 / 0.3 / 0.2. -/
theorem search_score_and_order (W : Weights) (now : ℚ) (st : List Memory)
    (q : List Char) (limit : Nat) (h : extract_search_keywords q ≠ ∅) :
    (∀ row ∈ searchResults W now st q limit,
        row.hit_count = hitCount (extract_search_keywords q) row.content
          ∧ row.score
            = W.keyword * (row.hit_count : ℚ) / ((extract_search_keywords q).card : ℚ)
              + W.importance * (row.importance : ℚ) / 10
              + W.recency * (1 / (1 + (now - row.created_at) / 86400)))
      ∧ (searchResults W now st q limit).Sorted rankLE
      ∧ (searchResults W now st q limit).length ≤ limit
      ∧ defaultWeights.keyword = 0.5 ∧ defaultWeights.importance = 0.3
        ∧ defaultWeights.recency = 0.2 := by
  refine ⟨?_, ?_, ?_, rfl, rfl, rfl⟩
  · intro row hrow
    obtain ⟨m, _, _, rfl⟩ := mem_searchResults hrow
    exact ⟨rfl, rfl⟩
  · rw [searchResults_eq h]
    exact List.Pairwise.sublist (List.take_sublist _ _)
      (List.sorted_insertionSort rankLE _)
  · rw [searchResults_eq h, List.length_take]
    exact min_le_left _ _

/-- Witness for C1 on a one-memory store and the query `"春节"`. -/
theorem search_score_and_order_witness :
    (∀ row ∈ searchResults defaultWeights 0 storeOne queryOne 10,
        row.hit_count = hitCount (extract_search_keywords queryOne) row.content
          ∧ row.score
            = defaultWeights.keyword * (row.hit_count : ℚ)
                / ((extract_search_keywords queryOne).card : ℚ)
              + defaultWeights.importance * (row.importance : ℚ) / 10
              + defaultWeights.recency * (1 / (1 + (0 - row.created_at) / 86400)))
      ∧ (searchResults defaultWeights 0 storeOne queryOne 10).Sorted rankLE
      ∧ (searchResults defaultWeights 0 storeOne queryOne 10).length ≤ 10
      ∧ defaultWeights.keyword = 0.5 ∧ defaultWeights.importance = 0.3
        ∧ defaultWeights.recency = 0.2 :=
  search_score_and_order defaultWeights 0 storeOne queryOne 10 (by decide)

/-- C7: every returned row's content matches at least one extracted token
case-insensitively, and a stored memory whose content matches no token
never appears in the results (it is excluded entirely rather than returned
with score 0). -/
theorem search_results_only_candidates (W : Weights) (now : ℚ) (st : List Memory)
    (q : List Char) (limit : Nat) (h : extract_search_keywords q ≠ ∅) :
    (∀ row ∈ searchResults W now st q limit,
        ∃ kw ∈ extract_search_keywords q, ilikeMatch row.content kw)
      ∧ (∀ m ∈ st, (∀ kw ∈ extract_search_keywords q, ¬ ilikeMatch m.content kw) →
          ∀ row ∈ searchResults W now st q limit, row.content ≠ m.content) := by
  constructor
  · intro row hrow
    obtain ⟨m, _, hmatch, rfl⟩ := mem_searchResults hrow
    exact hmatch
  · intro m _ hnone row hrow hcontent
    obtain ⟨m', _, hmatch', rfl⟩ := mem_searchResults hrow
    obtain ⟨kw, hkw, hmatch⟩ := hmatch'
    have hcc : m'.content = m.content := hcontent
    exact hnone kw hkw (hcc ▸ hmatch)

/-- Witness for C7 on the spec's scenario: query `"春节干了什么"` against a
store holding `"春节准备去妈妈家吃团年饭"` and `"今天天气很好"`. -/
theorem search_results_only_candidates_witness :
    (∀ row ∈ searchResults defaultWeights 0 storeTwo queryTwo 10,
        ∃ kw ∈ extract_search_keywords queryTwo, ilikeMatch row.content kw)
      ∧ (∀ m ∈ storeTwo,
          (∀ kw ∈ extract_search_keywords queryTwo, ¬ ilikeMatch m.content kw) →
          ∀ row ∈ searchResults defaultWeights 0 storeTwo queryTwo 10,
            row.content ≠ m.content) :=
  search_results_only_candidates defaultWeights 0 storeTwo queryTwo 10 (by decide)

lemma stampAccessed_stamps {st : List Memory} {ids : List Nat} {now : ℚ}
    {m : Memory} (hm : m ∈ stampAccessed st ids now) (hid : m.id ∈ ids) :
    m.last_accessed = now := by
  unfold stampAccessed at hm
  obtain ⟨m0, _, rfl⟩ := List.mem_map.mp hm
  by_cases h : m0.id ∈ ids
  · simp [h]
  · rw [if_neg h] at hid
    exact absurd hid h

/-- C4 (amended): when the result set is non-empty and the `last_accessed`
UPDATE succeeds, every store row whose id occurs in the result set is
stamped with `last_accessed = now` and the ranked rows are returned; but if
the UPDATE fails, `search_memories` raises — the caller does not receive
the results, because the code does not guard the UPDATE with a
try/except. -/
theorem search_last_accessed_update (W : Weights) (now : ℚ) (st : List Memory)
    (q : List Char) (limit : Nat)
    (hres : (searchResults W now st q limit).isEmpty = false) :
    (search_memories W now st q limit true
        = .ok (searchResults W now st q limit,
            stampAccessed st ((searchResults W now st q limit).map SearchRow.id) now)
      ∧ ∀ m ∈ stampAccessed st
            ((searchResults W now st q limit).map SearchRow.id) now,
          m.id ∈ (searchResults W now st q limit).map SearchRow.id →
            m.last_accessed = now)
      ∧ search_memories W now st q limit false = .error () := by
  have hq : ¬ extract_search_keywords q = ∅ := by
    intro h0
    rw [searchResults_empty h0] at hres
    simp at hres
  refine ⟨⟨?_, fun m hm hid => stampAccessed_stamps hm hid⟩, ?_⟩
  · simp [search_memories, hq, hres]
  · simp [search_memories, hq, hres]

/-- Witness for C4's amended theorem on a one-memory store. -/
theorem search_last_accessed_update_witness :
    (search_memories defaultWeights 0 storeOne queryOne 10 true
        = .ok (searchResults defaultWeights 0 storeOne queryOne 10,
            stampAccessed storeOne
              ((searchResults defaultWeights 0 storeOne queryOne 10).map SearchRow.id) 0)
      ∧ ∀ m ∈ stampAccessed storeOne
            ((searchResults defaultWeights 0 storeOne queryOne 10).map SearchRow.id) 0,
          m.id ∈ (searchResults defaultWeights 0 storeOne queryOne 10).map SearchRow.id →
            m.last_accessed = 0)
      ∧ search_memories defaultWeights 0 storeOne queryOne 10 false = .error () :=
  search_last_accessed_update defaultWeights 0 storeOne queryOne 10 rfl

/-- C4 counterexample: on a store whose single memory matches the query,
the result set is non-empty, yet with a failing `last_accessed` UPDATE the
whole search call raises (`Except.error`) instead of still returning the
ranked results. -/
theorem search_update_failure_raises :
    (searchResults defaultWeights 0 storeOne queryOne 10).isEmpty = false
      ∧ search_memories defaultWeights 0 storeOne queryOne 10 false = .error () :=
  ⟨rfl, rfl⟩


/- ============================================================
   Extraction-client lemmas  (C3, C6, C10)
   ============================================================ -/

lemma validate_cons_skip (j : Json) (rest : List Json)
    (hskip : validateCandidates (j :: rest) = validateCandidates rest)
    (h1 : candAborts j = false) (h2 : candOf j = none)
    (ih : validateCandidates rest
      = if rest.any candAborts then .error () else .ok (rest.filterMap candOf)) :
    validateCandidates (j :: rest)
      = if (j :: rest).any candAborts then .error ()
        else .ok ((j :: rest).filterMap candOf) := by
  rw [hskip, ih, List.any_cons, h1, Bool.false_or, List.filterMap_cons, h2]

lemma validateCandidates_spec (elems : List Json) :
    validateCandidates elems
      = if elems.any candAborts then .error ()
        else .ok (elems.filterMap candOf) := by
  induction elems with
  | nil => rfl
  | cons j rest ih =>
    cases j with
    | obj f =>
      cases hc : lookupField f ("content".toList) with
      | none =>
        have h1 : candAborts (.obj f) = false := by
          simp only [candAborts]; rw [hc]; rfl
        have h2 : candOf (.obj f) = none := by
          simp only [candOf]; rw [hc]
        have hskip : validateCandidates (Json.obj f :: rest)
            = validateCandidates rest := by
          simp only [validateCandidates]; rw [hc]
        exact validate_cons_skip _ rest hskip h1 h2 ih
      | some c =>
        cases hi : pyInt ((lookupField f ("importance".toList)).getD (.num 5)) with
        | none =>
          have hv : validateCandidates (Json.obj f :: rest) = .error () := by
            simp only [validateCandidates]; rw [hc, hi]
          have h1 : candAborts (.obj f) = true := by
            simp only [candAborts]; rw [hc, hi]; rfl
          rw [hv, List.any_cons, h1, Bool.true_or]
          rfl
        | some imp =>
          have hv : validateCandidates (Json.obj f :: rest)
              = (validateCandidates rest).map
                  (fun l => (⟨pyStr c, imp⟩ : ExtractedMem) :: l) := by
            simp only [validateCandidates]; rw [hc, hi]
          have h1 : candAborts (.obj f) = false := by
            simp only [candAborts]; rw [hc, hi]; rfl
          have h2 : candOf (.obj f) = some ⟨pyStr c, imp⟩ := by
            simp only [candOf]; rw [hc, hi]; rfl
          rw [hv, ih, List.any_cons, h1, Bool.false_or, List.filterMap_cons, h2]
          cases hrest : rest.any candAborts <;> rfl
    | null => exact validate_cons_skip _ rest rfl rfl rfl ih
    | bool b => exact validate_cons_skip _ rest rfl rfl rfl ih
    | num n => exact validate_cons_skip _ rest rfl rfl rfl ih
    | str s => exact validate_cons_skip _ rest rfl rfl rfl ih
    | arr l => exact validate_cons_skip _ rest rfl rfl rfl ih

/-- C3 (amended): when the (fence-cleaned) payload parses as a JSON array,
a candidate that is not an object or lacks `content` is dropped
individually and an absent importance defaults to 5; but one candidate
whose importance `int(...)` cannot coerce makes the whole call return `[]`
— the well-formed candidates of the same batch are lost too, because the
`ValueError` escapes the loop into the broad `except` handler. -/
theorem extract_memories_candidate_handling (msgs : List ExtMsg)
    (existing : List (List Char)) (payload : List Char) (elems : List Json)
    (hmsgs : msgs.isEmpty = false)
    (htext : (pyStrip (conversationText msgs)).isEmpty = false)
    (hparse : loads (cleanLLMText payload) = some (.arr elems)) :
    extract_memories true msgs existing (.response 200 payload)
        = (if elems.any candAborts then [] else elems.filterMap candOf)
      ∧ ∀ (f : List (List Char × Json)) (c : Json),
          lookupField f ("content".toList) = some c →
          lookupField f ("importance".toList) = none →
            candOf (.obj f) = some ⟨pyStr c, 5⟩ := by
  constructor
  · have hrw : extract_memories true msgs existing (.response 200 payload)
        = match validateCandidates elems with
          | .ok l => l
          | .error _ => [] := by
      simp [extract_memories, hmsgs, htext, hparse]
    rw [hrw, validateCandidates_spec]
    cases h : elems.any candAborts <;> rfl
  · intro f c h1 h2
    simp only [candOf]
    rw [h1, h2]
    rfl

/-- Witness for C3's amended theorem on a payload with one well-formed
candidate carrying an explicit importance. -/
theorem extract_memories_candidate_handling_witness :
    (extract_memories true goodMsgs [] (.response 200 payloadPlainArray)
        = (if [Json.obj [("content".toList, Json.str ("春节吃饺子".toList)),
                ("importance".toList, Json.num 7)]].any candAborts then []
           else [Json.obj [("content".toList, Json.str ("春节吃饺子".toList)),
                ("importance".toList, Json.num 7)]].filterMap candOf))
      ∧ ∀ (f : List (List Char × Json)) (c : Json),
          lookupField f ("content".toList) = some c →
          lookupField f ("importance".toList) = none →
            candOf (.obj f) = some ⟨pyStr c, 5⟩ :=
  extract_memories_candidate_handling goodMsgs [] payloadPlainArray
    [Json.obj [("content".toList, Json.str ("春节吃饺子".toList)),
      ("importance".toList, Json.num 7)]] rfl rfl rfl

/-- C3 counterexample: the payload parses as a JSON array holding the
well-formed candidate `{"content": "a"}` and a second candidate with the
non-integer importance `"x"`; the claim says the malformed candidate is
dropped individually and the first candidate is still returned with
importance 5, but the code returns `[]` — the whole batch is dropped. -/
theorem extract_memories_batch_abort :
    loads payloadBadImportance
        = some (.arr
            [.obj [("content".toList, .str ("a".toList))],
             .obj [("content".toList, .str ("b".toList)),
                   ("importance".toList, .str ("x".toList))]])
      ∧ candOf (.obj [("content".toList, .str ("a".toList))])
          = some ⟨"a".toList, 5⟩
      ∧ extract_memories true goodMsgs [] (.response 200 payloadBadImportance)
          = [] :=
  ⟨rfl, rfl, rfl⟩

/-- C6 (amended): a transport error, a non-200 status, or a payload that —
after the markdown-fence cleanup — does not parse as a JSON array all
yield an empty extraction result; the embedding is total, reflecting that
the code catches every exception and returns a list. -/
theorem extract_memories_failure_empty (apiKeySet : Bool) (msgs : List ExtMsg)
    (existing : List (List Char)) (out : HttpOutcome)
    (h : match out with
         | .transportError => True
         | .response status payload =>
             status ≠ 200
               ∨ ∀ elems : List Json,
                   loads (cleanLLMText payload) ≠ some (.arr elems)) :
    extract_memories apiKeySet msgs existing out = [] := by
  cases apiKeySet with
  | false => rfl
  | true =>
    by_cases hm : msgs.isEmpty = true
    · simp [extract_memories, hm]
    · by_cases ht : (pyStrip (conversationText msgs)).isEmpty = true
      · simp [extract_memories, hm, ht]
      · cases out with
        | transportError => simp [extract_memories, hm, ht]
        | response status payload =>
          rcases h with hs | hp
          · simp [extract_memories, hm, ht, hs]
          · cases hl : loads (cleanLLMText payload) with
            | none => simp [extract_memories, hm, ht, hl]
            | some j =>
              cases j with
              | arr elems => exact absurd hl (hp elems)
              | null => simp [extract_memories, hm, ht, hl]
              | bool b => simp [extract_memories, hm, ht, hl]
              | num n => simp [extract_memories, hm, ht, hl]
              | str s => simp [extract_memories, hm, ht, hl]
              | obj f => simp [extract_memories, hm, ht, hl]

/-- Witness for C6's amended theorem on a 500 response. -/
theorem extract_memories_failure_empty_witness :
    extract_memories true goodMsgs [] (.response 500 ("oops".toList)) = [] :=
  extract_memories_failure_empty true goodMsgs [] (.response 500 ("oops".toList))
    (Or.inl (by decide))

/-- C6 counterexample: a fence-wrapped array payload does not parse as a
JSON array (so the claim's hypothesis holds), yet `extract_memories`
returns a non-empty list rather than the empty list the claim requires. -/
theorem fenced_payload_not_json_but_extracted :
    loads payloadFencedArray = none
      ∧ extract_memories true goodMsgs [] (.response 200 payloadFencedArray)
          = [⟨"x".toList, 5⟩] :=
  ⟨rfl, rfl⟩

/- ============================================================
   Markdown-fence stripping lemmas  (C10)
   ============================================================ -/

lemma dropWhile_cons_false {p : Char → Bool} {c : Char} {l : List Char}
    (h : p c = false) : (c :: l).dropWhile p = c :: l := by
  simp [List.dropWhile, h]

lemma dropWhile_cons_true {p : Char → Bool} {c : Char} {l : List Char}
    (h : p c = true) : (c :: l).dropWhile p = l.dropWhile p := by
  simp [List.dropWhile, h]

lemma pyStrip_eq_self {l : List Char} (h : pyStripped l = true) : pyStrip l = l := by
  rcases l with _ | ⟨c, t⟩
  · rfl
  · unfold pyStripped at h
    rw [Bool.and_eq_true] at h
    obtain ⟨h1, h2⟩ := h
    have hc : isPySpace c = false := by simpa using h1
    unfold pyStrip
    rw [dropWhile_cons_false hc]
    rcases hr : (c :: t).reverse with _ | ⟨d, u⟩
    · simp at hr
    · have hd : isPySpace d = false := by
        rw [hr] at h2
        simpa using h2
      rw [dropWhile_cons_false hd, ← hr, List.reverse_reverse]

lemma pyStrip_wrap {s : List Char} (hne : s.isEmpty = false)
    (hs : pyStripped s = true) :
    pyStrip ('\n' :: (s ++ ['\n'])) = s := by
  rcases s with _ | ⟨c, t⟩
  · simp at hne
  · unfold pyStripped at hs
    rw [Bool.and_eq_true] at hs
    obtain ⟨h1, h2⟩ := hs
    have hc : isPySpace c = false := by simpa using h1
    unfold pyStrip
    rw [dropWhile_cons_true (by decide), List.cons_append, dropWhile_cons_false hc]
    rw [show (c :: (t ++ ['\n'])) = (c :: t) ++ ['\n'] by simp, List.reverse_append]
    rw [show ((['\n'] : List Char).reverse ++ (c :: t).reverse)
        = '\n' :: (c :: t).reverse from rfl]
    rw [dropWhile_cons_true (by decide)]
    rcases hr : (c :: t).reverse with _ | ⟨d, u⟩
    · simp at hr
    · have hd : isPySpace d = false := by
        rw [hr] at h2
        simpa using h2
      rw [dropWhile_cons_false hd, ← hr, List.reverse_reverse]

lemma pyStripped_fenceWrapJson (s : List Char) :
    pyStrip (fenceWrapJson s) = fenceWrapJson s := by
  apply pyStrip_eq_self
  unfold pyStripped
  rw [Bool.and_eq_true]
  constructor
  · rw [show (fenceWrapJson s).head? = some '\x60' from rfl]
    rfl
  · have hrev : (fenceWrapJson s).reverse
        = '\x60' :: ('\x60' :: ('\x60' :: ('\n' ::
            (s.reverse ++ ("```json\n".toList).reverse)))) := by
      unfold fenceWrapJson
      rw [List.reverse_append, List.reverse_append]
      rfl
    rw [hrev]
    rfl

lemma pyStripped_fenceWrapPlain (s : List Char) :
    pyStrip (fenceWrapPlain s) = fenceWrapPlain s := by
  apply pyStrip_eq_self
  unfold pyStripped
  rw [Bool.and_eq_true]
  constructor
  · rw [show (fenceWrapPlain s).head? = some '\x60' from rfl]
    rfl
  · have hrev : (fenceWrapPlain s).reverse
        = '\x60' :: ('\x60' :: ('\x60' :: ('\n' ::
            (s.reverse ++ ("```\n".toList).reverse)))) := by
      unfold fenceWrapPlain
      rw [List.reverse_append, List.reverse_append]
      rfl
    rw [hrev]
    rfl

lemma clean_tail_fenced {s : List Char} (hne : s.isEmpty = false)
    (hs : pyStripped s = true) :
    pyStrip (if "```".toList <:+ '\n' :: (s ++ fenceEnd)
        then ('\n' :: (s ++ fenceEnd)).take (('\n' :: (s ++ fenceEnd)).length - 3)
        else '\n' :: (s ++ fenceEnd)) = s := by
  have hsuf : "```".toList <:+ '\n' :: (s ++ fenceEnd) :=
    ⟨'\n' :: (s ++ ['\n']), by rw [List.cons_append, List.append_assoc]; rfl⟩
  have hlen : ('\n' :: (s ++ fenceEnd)).length - 3 = s.length + 2 := by
    have h4 : fenceEnd.length = 4 := rfl
    simp [List.length_cons, List.length_append, h4]
  have htake : ('\n' :: (s ++ fenceEnd)).take (s.length + 2)
      = '\n' :: (s ++ ['\n']) := by
    rw [show s.length + 2 = (s.length + 1) + 1 by omega, List.take_succ_cons,
      take_len_append s fenceEnd 1]
    rfl
  rw [if_pos hsuf, hlen, htake]
  exact pyStrip_wrap hne hs

lemma cleanLLMText_fenceWrapJson {s : List Char} (hne : s.isEmpty = false)
    (hs : pyStripped s = true) : cleanLLMText (fenceWrapJson s) = s := by
  have hpre : "```json".toList <+: fenceWrapJson s :=
    ⟨'\n' :: (s ++ fenceEnd), rfl⟩
  have hnopre : ¬ ("```".toList <+: '\n' :: (s ++ fenceEnd)) := by
    rintro ⟨u, hu⟩
    have h60 : some '\x60' = some '\n' := congrArg List.head? hu
    exact absurd h60 (by decide)
  simp only [cleanLLMText]
  rw [pyStripped_fenceWrapJson, if_pos hpre,
    show (fenceWrapJson s).drop 7 = '\n' :: (s ++ fenceEnd) from rfl,
    if_neg hnopre]
  exact clean_tail_fenced hne hs

lemma cleanLLMText_fenceWrapPlain {s : List Char} (hne : s.isEmpty = false)
    (hs : pyStripped s = true) : cleanLLMText (fenceWrapPlain s) = s := by
  have hnojson : ¬ ("```json".toList <+: fenceWrapPlain s) := by
    rintro ⟨u, hu⟩
    have hj : some 'j' = some '\n' := congrArg (fun l => (List.drop 3 l).head?) hu
    exact absurd hj (by decide)
  have hpre : "```".toList <+: fenceWrapPlain s :=
    ⟨'\n' :: (s ++ fenceEnd), rfl⟩
  simp only [cleanLLMText]
  rw [pyStripped_fenceWrapPlain, if_neg hnojson, if_pos hpre,
    show (fenceWrapPlain s).drop 3 = '\n' :: (s ++ fenceEnd) from rfl]
  exact clean_tail_fenced hne hs

/-- C10: a payload that is a JSON array of candidate objects wrapped in
markdown code fences — a leading ```` ```json ```` or ```` ``` ```` and a
trailing ```` ``` ```` — is fence-stripped by `extract_memories`, which
then returns the contained candidates, even though the payload as a whole
is not valid JSON (the `loads … = none` hypotheses, discharged by
evaluation at the witness). -/
theorem extract_memories_strips_fences (msgs : List ExtMsg)
    (existing : List (List Char)) (s : List Char) (elems : List Json)
    (cands : List ExtractedMem)
    (hmsgs : msgs.isEmpty = false)
    (htext : (pyStrip (conversationText msgs)).isEmpty = false)
    (hne : s.isEmpty = false) (hs : pyStripped s = true)
    (hload : loads s = some (.arr elems))
    (hval : validateCandidates elems = .ok cands)
    (hnotjson : loads (fenceWrapJson s) = none)
    (hnotjson' : loads (fenceWrapPlain s) = none) :
    extract_memories true msgs existing (.response 200 (fenceWrapJson s)) = cands
      ∧ extract_memories true msgs existing (.response 200 (fenceWrapPlain s))
          = cands := by
  have hcj := cleanLLMText_fenceWrapJson hne hs
  have hcp := cleanLLMText_fenceWrapPlain hne hs
  constructor
  · simp [extract_memories, hmsgs, htext, hcj, hload, hval]
  · simp [extract_memories, hmsgs, htext, hcp, hload, hval]

/-- Witness for C10 on a concrete fenced candidate array. -/
theorem extract_memories_strips_fences_witness :
    extract_memories true goodMsgs [] (.response 200 (fenceWrapJson payloadPlainArray))
        = [⟨"春节吃饺子".toList, 7⟩]
      ∧ extract_memories true goodMsgs []
          (.response 200 (fenceWrapPlain payloadPlainArray))
        = [⟨"春节吃饺子".toList, 7⟩] :=
  extract_memories_strips_fences goodMsgs [] payloadPlainArray
    [Json.obj [("content".toList, Json.str ("春节吃饺子".toList)),
      ("importance".toList, Json.num 7)]]
    [⟨"春节吃饺子".toList, 7⟩] rfl rfl rfl rfl rfl rfl rfl rfl

/- ============================================================
   Curation-pipeline and import-path lemmas  (C5, C9)
   ============================================================ -/

lemma foldl_save_superset (now : ℚ) (sess : List Char) :
    ∀ (l : List ExtractedMem) (st : List Memory) (nid : Nat) (m : Memory),
      m ∈ st →
        m ∈ (l.foldl (fun stn c =>
            save_memory stn.1 stn.2 now c.content c.importance sess) (st, nid)).1 := by
  intro l
  induction l with
  | nil => intro st nid m hm; exact hm
  | cons c cs ih =>
    intro st nid m hm
    exact ih (st ++ [⟨nid, c.content, c.importance, sess, now, now⟩]) (nid + 1) m
      (List.mem_append.mpr (Or.inl hm))

lemma foldl_save_mem (now : ℚ) (sess : List Char) :
    ∀ (l : List ExtractedMem) (st : List Memory) (nid : Nat) (m : Memory),
      m ∈ (l.foldl (fun stn c =>
          save_memory stn.1 stn.2 now c.content c.importance sess) (st, nid)).1 →
        m ∈ st ∨ ∃ c ∈ l, m.content = c.content ∧ m.importance = c.importance
          ∧ m.source_session = sess := by
  intro l
  induction l with
  | nil => intro st nid m hm; exact Or.inl hm
  | cons c cs ih =>
    intro st nid m hm
    rcases ih (st ++ [⟨nid, c.content, c.importance, sess, now, now⟩]) (nid + 1) m hm
      with h | ⟨c', hc', h⟩
    · rcases List.mem_append.mp h with h | h
      · exact Or.inl h
      · rw [List.mem_singleton] at h
        subst h
        exact Or.inr ⟨c, List.mem_cons_self c cs, rfl, rfl, rfl⟩
    · exact Or.inr ⟨c', List.mem_cons_of_mem c hc', h⟩

lemma foldl_save_exists (now : ℚ) (sess : List Char) :
    ∀ (l : List ExtractedMem) (st : List Memory) (nid : Nat) (c : ExtractedMem),
      c ∈ l →
        ∃ m ∈ (l.foldl (fun stn c =>
            save_memory stn.1 stn.2 now c.content c.importance sess) (st, nid)).1,
          m.content = c.content ∧ m.importance = c.importance
            ∧ m.source_session = sess := by
  intro l
  induction l with
  | nil => intro st nid c hc; simp at hc
  | cons a as ih =>
    intro st nid c hc
    rcases List.mem_cons.mp hc with h | h
    · subst h
      refine ⟨⟨nid, c.content, c.importance, sess, now, now⟩, ?_, rfl, rfl, rfl⟩
      exact foldl_save_superset now sess as
        (st ++ [⟨nid, c.content, c.importance, sess, now, now⟩]) (nid + 1) _
        (List.mem_append.mpr (Or.inr (List.mem_singleton.mpr rfl)))
    · exact ih (st ++ [⟨nid, a.content, a.importance, sess, now, now⟩]) (nid + 1) c h

/-- C9: the curation pipeline drops a candidate iff its content contains a
denylist term as a (case-sensitive) substring, regardless of its
importance: a denylisted candidate's content never reaches the store, and
every non-denylisted candidate is inserted with `source_session` set to the
originating session id. -/
theorem curation_denylist_filter (now : ℚ) (sess : List Char)
    (cands : List ExtractedMem) (st : List Memory) (nid : Nat) :
    (∀ c ∈ cands, blacklisted c.content = true →
        ∀ m ∈ (process_memories_background now sess cands st nid).1,
          m ∈ st ∨ m.content ≠ c.content)
      ∧ (∀ c ∈ cands, blacklisted c.content = false →
          ∃ m ∈ (process_memories_background now sess cands st nid).1,
            m.content = c.content ∧ m.importance = c.importance
              ∧ m.source_session = sess) := by
  constructor
  · intro c hc hblk m hm
    unfold process_memories_background at hm
    rcases foldl_save_mem now sess _ st nid m hm with h | ⟨c', hc', hcont, _, _⟩
    · exact Or.inl h
    · right
      intro heq
      have hbf : blacklisted c'.content = false := by
        have := (List.mem_filter.mp hc').2
        simpa using this
      have hcc : c'.content = c.content := hcont.symm.trans heq
      rw [hcc, hblk] at hbf
      exact Bool.noConfusion hbf
  · intro c hc hblk
    have hcf : c ∈ cands.filter (fun m => !blacklisted m.content) :=
      List.mem_filter.mpr ⟨hc, by simp [hblk]⟩
    unfold process_memories_background
    exact foldl_save_exists now sess _ st nid c hcf

/-- Witness for C9 on a pair of candidates, one containing the denylisted
term `"数据库"`. -/
theorem curation_denylist_filter_witness :
    (∀ c ∈ candsTwo, blacklisted c.content = true →
        ∀ m ∈ (process_memories_background 0 ("s1".toList) candsTwo [] 1).1,
          m ∈ ([] : List Memory) ∨ m.content ≠ c.content)
      ∧ (∀ c ∈ candsTwo, blacklisted c.content = false →
          ∃ m ∈ (process_memories_background 0 ("s1".toList) candsTwo [] 1).1,
            m.content = c.content ∧ m.importance = c.importance
              ∧ m.source_session = "s1".toList) :=
  curation_denylist_filter 0 ("s1".toList) candsTwo [] 1

lemma import_memories_mem (now : ℚ) :
    ∀ (recs : List ImportRecord) (st : List Memory) (nid : Nat) (m : Memory),
      m ∈ (import_memories now recs (st, nid)).1.1 →
        m ∈ st ∨ ∃ r ∈ recs, m.content = r.content
          ∧ m.importance = r.importance.getD 5
          ∧ m.source_session = r.source_session.getD ("json-import".toList) := by
  intro recs
  induction recs with
  | nil => intro st nid m hm; exact Or.inl hm
  | cons r rest ih =>
    intro st nid m hm
    unfold import_memories at hm
    split at hm
    · rcases ih st nid m hm with h | ⟨r', hr', h⟩
      · exact Or.inl h
      · exact Or.inr ⟨r', List.mem_cons_of_mem r hr', h⟩
    · split at hm
      · rcases ih st nid m hm with h | ⟨r', hr', h⟩
        · exact Or.inl h
        · exact Or.inr ⟨r', List.mem_cons_of_mem r hr', h⟩
      · rcases ih (st ++ [⟨nid, r.content, r.importance.getD 5,
            r.source_session.getD ("json-import".toList), now, now⟩]) (nid + 1) m hm
          with h | ⟨r', hr', h⟩
        · rcases List.mem_append.mp h with h | h
          · exact Or.inl h
          · rw [List.mem_singleton] at h
            subst h
            exact Or.inr ⟨r, List.mem_cons_self r rest, rfl, rfl, rfl⟩
        · exact Or.inr ⟨r', List.mem_cons_of_mem r hr', h⟩

lemma run_seed_import_mem (now : ℚ) :
    ∀ (seeds : List (List Char × Int)) (st : List Memory) (nid : Nat) (m : Memory),
      m ∈ (run_seed_import now seeds (st, nid)).1.1 →
        m ∈ st ∨ ∃ sd ∈ seeds, m.content = sd.1 ∧ m.importance = sd.2
          ∧ m.source_session = "seed-import".toList := by
  intro seeds
  induction seeds with
  | nil => intro st nid m hm; exact Or.inl hm
  | cons sd rest ih =>
    intro st nid m hm
    obtain ⟨c, imp⟩ := sd
    unfold run_seed_import at hm
    split at hm
    · rcases ih st nid m hm with h | ⟨sd', hsd', h⟩
      · exact Or.inl h
      · exact Or.inr ⟨sd', List.mem_cons_of_mem _ hsd', h⟩
    · rcases ih (st ++ [⟨nid, c, imp, "seed-import".toList, now, now⟩]) (nid + 1) m hm
        with h | ⟨sd', hsd', h⟩
      · rcases List.mem_append.mp h with h | h
        · exact Or.inl h
        · rw [List.mem_singleton] at h
          subst h
          exact Or.inr ⟨(c, imp), List.mem_cons_self _ rest, rfl, rfl, rfl⟩
      · exact Or.inr ⟨sd', List.mem_cons_of_mem _ hsd', h⟩

/-- C5 (amended): every row stored by the JSON import, the skip-scoring
text import, the seed import, or the curation commit carries the
caller-supplied importance verbatim — with 5 used only where the code
itself defaults an absent importance (`mem.get("importance", 5)`, the
skip-scoring text path) — and the path's `source_session` tag; no path
clamps or validates the importance into [1, 10]. -/
theorem insert_paths_importance_unvalidated (now : ℚ) (recs : List ImportRecord)
    (lines : List (List Char)) (seeds : List (List Char × Int)) (sess : List Char)
    (cands : List ExtractedMem) (st : List Memory) (nid : Nat) :
    (∀ m ∈ (import_memories now recs (st, nid)).1.1,
        m ∈ st ∨ ∃ r ∈ recs, m.content = r.content
          ∧ m.importance = r.importance.getD 5
          ∧ m.source_session = r.source_session.getD ("json-import".toList))
      ∧ (∀ m ∈ (import_text_memories now lines (st, nid)).1.1,
          m ∈ st ∨ ∃ t ∈ lines, m.content = t ∧ m.importance = 5
            ∧ m.source_session = "text-import".toList)
      ∧ (∀ m ∈ (run_seed_import now seeds (st, nid)).1.1,
          m ∈ st ∨ ∃ sd ∈ seeds, m.content = sd.1 ∧ m.importance = sd.2
            ∧ m.source_session = "seed-import".toList)
      ∧ (∀ m ∈ (process_memories_background now sess cands st nid).1,
          m ∈ st ∨ ∃ c ∈ cands, m.content = c.content ∧ m.importance = c.importance
            ∧ m.source_session = sess) := by
  refine ⟨fun m hm => import_memories_mem now recs st nid m hm, ?_,
    fun m hm => run_seed_import_mem now seeds st nid m hm, ?_⟩
  · intro m hm
    unfold import_text_memories at hm
    rcases import_memories_mem now _ st nid m hm with h | ⟨r, hr, h1, h2, h3⟩
    · exact Or.inl h
    · obtain ⟨t, ht, rfl⟩ := List.mem_map.mp hr
      exact Or.inr ⟨t, ht, h1, by simpa using h2, by simpa using h3⟩
  · intro m hm
    unfold process_memories_background at hm
    rcases foldl_save_mem now sess _ st nid m hm with h | ⟨c, hc, h⟩
    · exact Or.inl h
    · exact Or.inr ⟨c, List.mem_of_mem_filter hc, h⟩

/-- Witness for C5's amended theorem on one record per path. -/
theorem insert_paths_importance_unvalidated_witness :
    (∀ m ∈ (import_memories 0 [⟨"用户住在北京".toList, some 100, none⟩] ([], 1)).1.1,
        m ∈ ([] : List Memory)
          ∨ ∃ r ∈ [(⟨"用户住在北京".toList, some 100, none⟩ : ImportRecord)],
              m.content = r.content ∧ m.importance = r.importance.getD 5
                ∧ m.source_session = r.source_session.getD ("json-import".toList))
      ∧ (∀ m ∈ (import_text_memories 0 ["用户喜欢猫".toList] ([], 1)).1.1,
          m ∈ ([] : List Memory) ∨ ∃ t ∈ ["用户喜欢猫".toList], m.content = t
            ∧ m.importance = 5 ∧ m.source_session = "text-import".toList)
      ∧ (∀ m ∈ (run_seed_import 0 [("用户的名字是小明".toList, 9)] ([], 1)).1.1,
          m ∈ ([] : List Memory) ∨ ∃ sd ∈ [("用户的名字是小明".toList, (9 : Int))],
            m.content = sd.1 ∧ m.importance = sd.2
              ∧ m.source_session = "seed-import".toList)
      ∧ (∀ m ∈ (process_memories_background 0 ("s1".toList) candsTwo [] 1).1,
          m ∈ ([] : List Memory) ∨ ∃ c ∈ candsTwo, m.content = c.content
            ∧ m.importance = c.importance ∧ m.source_session = "s1".toList) :=
  insert_paths_importance_unvalidated 0 [⟨"用户住在北京".toList, some 100, none⟩]
    ["用户喜欢猫".toList] [("用户的名字是小明".toList, 9)] ("s1".toList) candsTwo [] 1

/-- C5 counterexample: a JSON import record with importance 100 is stored
with importance 100, outside [1, 10] — no insert path validates the
range. -/
theorem json_import_out_of_range_importance :
    ((import_memories 0 [⟨"用户住在北京".toList, some 100, none⟩] ([], 1)).1.1.map
        Memory.importance) = [100]
      ∧ ¬ ((100 : Int) ≤ 10) :=
  ⟨rfl, by decide⟩
